import Mathlib

/-!
Verification of the fetch_cmc_turnover pipeline (src/fetch_cmc_turnover.py and
src/main.py) against its design document.

Modelling conventions:
* Python floats and numeric page text are modelled as exact rationals (`ℚ`);
  `float(s)` becomes an exact decimal parser `parseDecimal` restricted to plain
  decimal notation (optional sign, digits, one optional dot), which covers every
  numeric form the pipeline's pages and the design document exercise.
* `round(x, 4)` is modelled as decimal round-half-to-even to four places
  (`round4`), mirroring Python's documented rounding mode.
* Selenium calls that can raise are modelled by explicit outcome datatypes
  (`LocOutcome`, `TextFetch`, `SelOutcome`); each Python `except ...: continue`
  arm becomes an explicit error branch of the corresponding loop.
* The pandas table is a `List Row` in append order.  `sort_values` on the two
  columns `['symbol', 'candle_begin_time']` is a lexicographic multi-key sort,
  which pandas performs with a stable sort (np.lexsort); it is modelled by the
  stable `List.insertionSort`.  `candle_begin_time` is kept as the string pandas
  reads back from the CSV (no parse_dates in the source), so both sorts compare
  strings, exactly as pandas does.
-/

namespace Cmc

/-! ## String helpers (Python `str.replace` / `in` on single characters) -/

/-- `s.replace c ""` for a single character `c`: drop every occurrence. -/
def stripChar (c : Char) (s : String) : String :=
  ⟨s.data.filter (fun d => d != c)⟩

/-- `s.replace a b` for single characters: map every occurrence of `a` to `b`. -/
def replaceChar (a b : Char) (s : String) : String :=
  ⟨s.data.map (fun d => if d = a then b else d)⟩

/-- Python `c in s` for a single character. -/
def containsChar (c : Char) (s : String) : Bool :=
  s.data.any (fun d => d == c)

/-! ## Numeric parsing (`float(...)`) and rounding (`round(x, 4)`) -/

/-- Value of a digit string, most significant first. -/
def digitsVal (cs : List Char) : ℕ :=
  cs.foldl (fun a c => a * 10 + (c.toNat - 48)) 0

/-- Parse an unsigned plain decimal: digits, optionally a dot and more digits. -/
def parseUnsigned (cs : List Char) : Option ℚ :=
  let ip := cs.takeWhile (fun c => c.isDigit)
  let rest := cs.dropWhile (fun c => c.isDigit)
  match rest with
  | [] => if ip.isEmpty then none else some (digitsVal ip : ℚ)
  | '.' :: frac =>
    if frac.all (fun c => c.isDigit) && !(ip.isEmpty && frac.isEmpty) then
      some ((digitsVal ip : ℚ) + (digitsVal frac : ℚ) / (10 : ℚ) ^ frac.length)
    else none
  | _ => none

/-- Python `float(s)` on plain decimal notation, `none` when `float` raises
`ValueError`.  (Exponent, infinity and whitespace forms never occur on the
scraped fields and are mapped to `none`.) -/
def parseDecimal (s : String) : Option ℚ :=
  match s.data with
  | '-' :: cs => (parseUnsigned cs).map (fun q => -q)
  | '+' :: cs => parseUnsigned cs
  | cs => parseUnsigned cs

/-- Round to the nearest integer, ties to even (Python's rounding mode). -/
def roundHalfEven (q : ℚ) : ℤ :=
  let f := ⌊q⌋
  if q - f < 1 / 2 then f
  else if 1 / 2 < q - f then f + 1
  else if f % 2 = 0 then f else f + 1

/-- Python `round(q, 4)`. -/
def round4 (q : ℚ) : ℚ :=
  (roundHalfEven (q * 10000) : ℚ) / 10000

/-! ## Exceptions -/

/-- The Python exceptions the pipeline's control flow distinguishes. -/
inductive PyExc : Type
  | noSuchElement
  | staleElementReference
  | valueError
  | attributeError
  | fileNotFoundError
  | indexError
  deriving DecidableEq

/-! ## Field extraction: `get_cmc_cap_vol_tor` (xpath cascades) -/

/-- Outcome of evaluating one xpath locator against the live page:
`find_element_by_xpath` raises `NoSuchElementException`, or reading `.text`
raises `StaleElementReferenceException`, or a text is obtained. -/
inductive LocOutcome : Type
  | notFound
  | stale
  | text (s : String)
  deriving DecidableEq

/-- One locator attempt: resolve the element, read its text, strip decoration
with `strip`, parse with `float`.  Any step may raise. -/
def locParse (strip : String → String) (o : LocOutcome) : Except PyExc ℚ :=
  match o with
  | .notFound => .error .noSuchElement
  | .stale => .error .staleElementReference
  | .text s =>
    match parseDecimal (strip s) with
    | some v => .ok v
    | none => .error .valueError

/-- Does this locator fail to yield a parseable value? (Every failing attempt
is caught by an `except ...: continue` arm in the source.) -/
def locFails (strip : String → String) (o : LocOutcome) : Bool :=
  match locParse strip o with
  | .ok _ => false
  | .error _ => true

/-- Decoration stripping for market cap and volume: `.replace("$","").replace(",","")`. -/
def stripCapVol (s : String) : String :=
  stripChar ',' (stripChar '$' s)

/-- Decoration stripping for turnover rate: `.replace("%","")`. -/
def stripPct (s : String) : String :=
  stripChar '%' s

/-- The market-cap xpath loop of `get_cmc_cap_vol_tor`: try locators in order,
first successful parse wins (`break`); every exception arm does `continue`;
exhaustion leaves the sentinel `-1.0`. -/
def capLoop : List LocOutcome → ℚ
  | [] => -1
  | o :: rest =>
    match locParse stripCapVol o with
    | .ok v => v
    | .error _ => capLoop rest

/-- The volume xpath loop: identical control flow and stripping to `capLoop`. -/
def volLoop : List LocOutcome → ℚ
  | [] => -1
  | o :: rest =>
    match locParse stripCapVol o with
    | .ok v => v
    | .error _ => volLoop rest

/-- The turnover-rate xpath loop: like `capLoop` but strips `%` and then
normalizes: `_tor = _tor if 0 <= _tor <= 1 else _tor / 100`. -/
def torLoop : List LocOutcome → ℚ
  | [] => -1
  | o :: rest =>
    match locParse stripPct o with
    | .ok v => if 0 ≤ v ∧ v ≤ 1 then v else v / 100
    | .error _ => torLoop rest

/-- The per-metric locator lists of one rendered coin page, as the three xpath
cascades of `get_cmc_cap_vol_tor` observe them. -/
structure Page : Type where
  capLocs : List LocOutcome
  volLocs : List LocOutcome
  torLocs : List LocOutcome

/-- `get_cmc_cap_vol_tor`: run the three cascades, return
`(market_cap, vol, turnover_rate)` with `-1.0` sentinels. -/
def get_cmc_cap_vol_tor (pg : Page) : ℚ × ℚ × ℚ :=
  (capLoop pg.capLocs, volLoop pg.volLocs, torLoop pg.torLocs)

/-! ## Field extraction: `get_cmc_turnover_rate` (CSS selector cascade) -/

/-- Reading `.text` of one resolved element: may raise
`StaleElementReferenceException`, else yields the text. -/
inductive TextFetch : Type
  | stale
  | ok (s : String)
  deriving DecidableEq

/-- Outcome of `find_elements_by_css_selector` for one selector: it raises
`NoSuchElementException`, or returns a (possibly empty) element list. -/
inductive SelOutcome : Type
  | raised
  | found (elems : List TextFetch)
  deriving DecidableEq

/-- The selector loop of `get_cmc_turnover_rate`: `break` on the first selector
returning a non-empty list; a raise or an empty result falls through to the
next selector; exhaustion leaves no candidates. -/
def firstNonEmpty : List SelOutcome → List TextFetch
  | [] => []
  | .raised :: rest => firstNonEmpty rest
  | .found [] :: rest => firstNonEmpty rest
  | .found (t :: ts) :: _ => t :: ts

/-- The candidate loop of `get_cmc_turnover_rate` over the resolved elements:
a `%`-bearing text is stripped, parsed, divided by 100 and rounded to 4
places; a bare text is accepted, rounded to 4 places, only when its value is
strictly between 0 and 1; any exception (stale read, parse failure) and any
rejected bare value falls through to the next candidate; exhaustion leaves the
sentinel `-1.0`. -/
def turnoverFromCandidates : List TextFetch → ℚ
  | [] => -1
  | .stale :: rest => turnoverFromCandidates rest
  | .ok s :: rest =>
    if containsChar '%' s then
      match parseDecimal (stripPct s) with
      | some v => round4 (v / 100)
      | none => turnoverFromCandidates rest
    else
      match parseDecimal s with
      | some v =>
        if 0 < v ∧ v < 1 then round4 v else turnoverFromCandidates rest
      | none => turnoverFromCandidates rest

/-- `get_cmc_turnover_rate`: selector cascade, then candidate loop. -/
def get_cmc_turnover_rate (sels : List SelOutcome) : ℚ :=
  turnoverFromCandidates (firstNonEmpty sels)

/-- Mirrors the design document's notion of "the accepted candidate x": the
pre-rounding value of the first candidate the loop accepts, `none` when the
loop exhausts.  Stated from the spec's words, to be compared with
`turnoverFromCandidates` (which is translated from the source). -/
def acceptedCandidateValue : List TextFetch → Option ℚ
  | [] => none
  | .stale :: rest => acceptedCandidateValue rest
  | .ok s :: rest =>
    if containsChar '%' s then
      match parseDecimal (stripPct s) with
      | some v => some (v / 100)
      | none => acceptedCandidateValue rest
    else
      match parseDecimal s with
      | some v =>
        if 0 < v ∧ v < 1 then some v else acceptedCandidateValue rest
      | none => acceptedCandidateValue rest

/-! ## Retry Executor: `retry_wrapper` (both variants) -/

/-- Failure classes distinguished by the `except` arms of
`retry_wrapper` in src/fetch_cmc_turnover.py. -/
inductive FailKind : Type
  | timeout        -- TimeoutException
  | txtBusy        -- OSError with errno ETXTBSY
  | osOther        -- other OSError
  | otherExc       -- any other Exception
  deriving DecidableEq

/-- What calling the wrapped operation for the `i`-th time does. -/
inductive Attempt (α : Type) : Type
  | ok (a : α)
  | fail (k : FailKind)

/-- Result of the retry executor: return the operation's result, raise after
exhaustion (`if_exit` true), or log and fall through returning `None`. -/
inductive RetryOutcome (α : Type) : Type
  | success (a : α)
  | raiseExit
  | skipNone
  deriving DecidableEq

/-- The retry loop of src/fetch_cmc_turnover.py, instrumented: returns the
outcome, the number of attempts actually made, and the list of sleeps
performed (every `except` arm sleeps `sleep_seconds`). -/
def retryGo (f : ℕ → Attempt α) (sleep_seconds : ℚ) (if_exit : Bool)
    (i : ℕ) : ℕ → List ℚ → RetryOutcome α × ℕ × List ℚ
  | 0, sleeps => ((if if_exit then .raiseExit else .skipNone), i, sleeps.reverse)
  | n + 1, sleeps =>
    match f i with
    | .ok a => (.success a, i + 1, sleeps.reverse)
    | .fail _ => retryGo f sleep_seconds if_exit (i + 1) n (sleep_seconds :: sleeps)

/-- `retry_wrapper(func, retry_times, sleep_seconds, if_exit)` of
src/fetch_cmc_turnover.py. -/
def retry_wrapper (f : ℕ → Attempt α) (retry_times : ℕ) (sleep_seconds : ℚ)
    (if_exit : Bool) : RetryOutcome α × ℕ × List ℚ :=
  retryGo f sleep_seconds if_exit 0 retry_times []

/-- Failure classes of `retry_wrapper` in src/main.py (only two arms). -/
inductive FailKindM : Type
  | timeout        -- TimeoutException: logged, but NO time.sleep in this arm
  | otherExc       -- any other Exception: logged and slept
  deriving DecidableEq

/-- What calling main.py's wrapped operation for the `i`-th time does. -/
inductive AttemptM (α : Type) : Type
  | ok (a : α)
  | fail (k : FailKindM)

/-- The retry loop of src/main.py: its `except TimeoutException` arm logs but
does not sleep; only the generic `except Exception` arm sleeps. -/
def retryGoMain (f : ℕ → AttemptM α) (sleep_seconds : ℚ) (if_exit : Bool)
    (i : ℕ) : ℕ → List ℚ → RetryOutcome α × ℕ × List ℚ
  | 0, sleeps => ((if if_exit then .raiseExit else .skipNone), i, sleeps.reverse)
  | n + 1, sleeps =>
    match f i with
    | .ok a => (.success a, i + 1, sleeps.reverse)
    | .fail .timeout => retryGoMain f sleep_seconds if_exit (i + 1) n sleeps
    | .fail .otherExc =>
      retryGoMain f sleep_seconds if_exit (i + 1) n (sleep_seconds :: sleeps)

/-- `retry_wrapper(func, retry_times, sleep_seconds, if_exit)` of src/main.py. -/
def retry_wrapper_main (f : ℕ → AttemptM α) (retry_times : ℕ) (sleep_seconds : ℚ)
    (if_exit : Bool) : RetryOutcome α × ℕ × List ℚ :=
  retryGoMain f sleep_seconds if_exit 0 retry_times []

/-! ## Table rows and the normalization pass `format_csv` -/

/-- One CSV row of src/fetch_cmc_turnover.py's table, columns in file order.
`candle_begin_time` is the textual hour bucket as pandas reads it back. -/
structure Row : Type where
  candle_begin_time : String
  symbol : String
  name : String
  market_cap : ℚ
  vol : ℚ
  turnover_rate : ℚ
  deriving DecidableEq

/-- The dedup key `(symbol, candle_begin_time)` of a row. -/
def key (r : Row) : String × String :=
  (r.symbol, r.candle_begin_time)

/-- Do two rows collide on the dedup key `['symbol', 'candle_begin_time']`? -/
def sameKey (a b : Row) : Bool :=
  a.symbol == b.symbol && a.candle_begin_time == b.candle_begin_time

/-- Does row `r` carry the key `k`? -/
def keyIs (k : String × String) (r : Row) : Bool :=
  r.symbol == k.1 && r.candle_begin_time == k.2

/-- The comparison of `sort_values(by=['symbol', 'candle_begin_time'])`:
lexicographic on the two string columns. -/
def rowLeST (a b : Row) : Prop :=
  a.symbol < b.symbol ∨ (a.symbol = b.symbol ∧ a.candle_begin_time ≤ b.candle_begin_time)

/-- The comparison of `sort_values(by="candle_begin_time")`. -/
def rowLeT (a b : Row) : Prop :=
  a.candle_begin_time ≤ b.candle_begin_time

instance : DecidableRel rowLeST := fun a b =>
  inferInstanceAs (Decidable (a.symbol < b.symbol ∨
    (a.symbol = b.symbol ∧ a.candle_begin_time ≤ b.candle_begin_time)))

instance : DecidableRel rowLeT := fun a b =>
  inferInstanceAs (Decidable (a.candle_begin_time ≤ b.candle_begin_time))

instance : IsTotal Row rowLeST :=
  ⟨fun a b => by
    rcases lt_trichotomy a.symbol b.symbol with h | h | h
    · exact Or.inl (Or.inl h)
    · rcases le_total a.candle_begin_time b.candle_begin_time with ht | ht
      · exact Or.inl (Or.inr ⟨h, ht⟩)
      · exact Or.inr (Or.inr ⟨h.symm, ht⟩)
    · exact Or.inr (Or.inl h)⟩

instance : IsTrans Row rowLeST :=
  ⟨fun a b c hab hbc => by
    rcases hab with h1 | ⟨e1, t1⟩
    · rcases hbc with h2 | ⟨e2, t2⟩
      · exact Or.inl (h1.trans h2)
      · exact Or.inl (lt_of_lt_of_le h1 (le_of_eq e2))
    · rcases hbc with h2 | ⟨e2, t2⟩
      · exact Or.inl (lt_of_le_of_lt (le_of_eq e1) h2)
      · exact Or.inr ⟨e1.trans e2, t1.trans t2⟩⟩

instance : IsTotal Row rowLeT :=
  ⟨fun a b => le_total a.candle_begin_time b.candle_begin_time⟩

instance : IsTrans Row rowLeT :=
  ⟨fun _ _ _ h1 h2 => le_trans h1 h2⟩

/-- `drop_duplicates(subset=['symbol', 'candle_begin_time'], keep='last')`:
keep a row exactly when no later row carries the same key, preserving the
relative order of the kept rows. -/
def dedupLast : List Row → List Row
  | [] => []
  | x :: xs =>
    if xs.any (fun y => sameKey x y) then dedupLast xs else x :: dedupLast xs

/-- `format_csv`: reload the table, sort by `(symbol, candle_begin_time)`
(a stable multi-key sort in pandas), drop duplicate keys keeping the last
row, re-sort by `candle_begin_time`, rewrite. -/
def format_csv (l : List Row) : List Row :=
  List.insertionSort rowLeT (dedupLast (List.insertionSort rowLeST l))

/-! ## Backup: `backup_csv` (both variants) -/

/-- `last_time.replace(" ", "_").replace(":", "-")`. -/
def sanitizeTime (s : String) : String :=
  replaceChar ':' '-' (replaceChar ' ' '_' s)

/-- The backup path: the table's file name suffixed with a dot and the
sanitized last `candle_begin_time`. -/
def backupName (fname lastTime : String) : String :=
  fname ++ "." ++ sanitizeTime lastTime

/-- `backup_csv` of src/fetch_cmc_turnover.py.  The table file is
`none` when absent; a present file is its row list.  A missing file is a
logged no-op (`ok none`); an existing empty table makes `iloc[-1]` raise. -/
def backup_csv (file : Option (List Row)) (fname : String) :
    Except PyExc (Option String) :=
  match file with
  | none => .ok none
  | some rows =>
    match rows.getLast? with
    | none => .error .indexError
    | some r => .ok (some (backupName fname r.candle_begin_time))

/-- `backup_csv` of src/main.py: no existence guard, so `pd.read_csv` raises
`FileNotFoundError` on a missing table file. -/
def backup_csv_main (file : Option (List Row)) (fname : String) :
    Except PyExc String :=
  match file with
  | none => .error .fileNotFoundError
  | some rows =>
    match rows.getLast? with
    | none => .error .indexError
    | some r => .ok (backupName fname r.candle_begin_time)

/-! ## Worker `save_for_one` and round orchestration -/

/-- One market pair from the upstream list. -/
structure Pair : Type where
  marketPair : String
  baseCurrencySlug : String
  deriving DecidableEq

/-- The worker's scoped resources: the temporary directory made by `mkdtemp`
and the browser execution context (chromedriver instance). -/
structure ResState : Type where
  tempDirExists : Bool
  driverOpen : Bool
  deriving DecidableEq

/-- The row `save_for_one` assembles from the extraction results. -/
def mkRow (now : String) (pg : Page) (p : Pair) : Row :=
  { candle_begin_time := now
    symbol := p.marketPair
    name := p.baseCurrencySlug
    market_cap := (get_cmc_cap_vol_tor pg).1
    vol := (get_cmc_cap_vol_tor pg).2.1
    turnover_rate := (get_cmc_cap_vol_tor pg).2.2 }

/-- `save_for_one(pair, driver_path)` of src/fetch_cmc_turnover.py, with the
resource state threaded explicitly.  `drvCreate` tells whether the
`webdriver.Chrome` retry (3 attempts, non-escalating) eventually succeeds; on
exhaustion `retry_wrapper` returns `None` and the next use of the driver
(`_driver.get` inside `get_cmc_cap_vol_tor`) raises `AttributeError`, which
nothing in `save_for_one` catches, so the temporary directory survives.  With
a live driver the extraction is total (every exception is caught by a
`continue` arm), so control always reaches `driver.quit()` and
`shutil.rmtree(temp_dir)`. -/
def save_for_one (now : String) (pg : Page) (drvCreate : Bool) (p : Pair) :
    Except PyExc Row × ResState :=
  -- temp_dir = Path(tempfile.mkdtemp(...)); shutil.copy(driver_path, ...)
  let st0 : ResState := { tempDirExists := true, driverOpen := false }
  if drvCreate then
    -- driver = retry_wrapper(webdriver.Chrome, ...) succeeded
    let st1 : ResState := { st0 with driverOpen := true }
    -- _cap, _vol, _tor = get_cmc_cap_vol_tor(...): total, never raises
    let r := mkRow now pg p
    -- driver.quit()
    let st2 : ResState := { st1 with driverOpen := false }
    -- shutil.rmtree(temp_dir)
    let st3 : ResState := { st2 with tempDirExists := false }
    (.ok r, st3)
  else
    -- retry_wrapper returned None; `_driver.get` raises AttributeError,
    -- skipping quit and rmtree
    (.error .attributeError, st0)

/-- The per-pair collection loop of `main`: sequentially process pairs; a
raised exception aborts the round (nothing is written). -/
def runRound (now : String) (pageOf : Pair → Page) (drvOf : Pair → Bool) :
    List Pair → Except PyExc (List Row)
  | [] => .ok []
  | p :: ps =>
    match (save_for_one now (pageOf p) (drvOf p) p).1 with
    | .error e => .error e
    | .ok r =>
      match runRound now pageOf drvOf ps with
      | .error e => .error e
      | .ok rs => .ok (r :: rs)

/-- In parallel mode, workers complete in an arbitrary order: `order` is the
sequence of input indices in completion order, and each completion event
carries the worker's index and its record. -/
def collectParallel (order : List ℕ) (g : ℕ → Row) : List (ℕ × Row) :=
  order.map (fun i => (i, g i))

/-- joblib's `Parallel` stores each completed result in the slot of its input
index, so the returned batch lists slot contents in input order. -/
def reassemble (n : ℕ) (events : List (ℕ × Row)) : List Row :=
  (List.range n).filterMap (fun i => (events.find? (fun e => e.1 == i)).map (fun e => e.2))

/-- One round of `main` in src/fetch_cmc_turnover.py acting on the table
`file`: back up the table (a raise aborts), scrape all pairs (a raise aborts),
append the batch (creating the file if absent) and run `format_csv`.  The
result is the table file's new state; an aborted round leaves it unchanged. -/
def main_round (file : Option (List Row)) (fname now : String)
    (pageOf : Pair → Page) (drvOf : Pair → Bool) (pairs : List Pair) :
    Option (List Row) :=
  match backup_csv file fname with
  | .error _ => file
  | .ok _ =>
    match runRound now pageOf drvOf pairs with
    | .error _ => file
    | .ok batch => some (format_csv ((file.getD []) ++ batch))

/-- One round of src/main.py's `main` acting on the table `file`, with the
scraping abstracted as the batch it would collect: `backup_csv()` runs first
and a raise aborts the round before anything is appended. -/
def main_round_main (file : Option (List Row)) (fname : String)
    (batch : List Row) : Option (List Row) :=
  match backup_csv_main file fname with
  | .error _ => file
  | .ok _ => some (format_csv ((file.getD []) ++ batch))

/-! ## Evaluation lemmas for rounding and parsing -/

theorem roundHalfEven_intCast (n : ℤ) : roundHalfEven (n : ℚ) = n := by
  simp only [roundHalfEven, Int.floor_intCast, sub_self]
  norm_num

theorem round4_of_mul_eq_intCast (q : ℚ) (n : ℤ) (h : q * 10000 = (n : ℚ)) :
    round4 q = (n : ℚ) / 10000 := by
  rw [round4, h, roundHalfEven_intCast]

theorem parse_12_34 : parseDecimal "12.34" = some (617 / 50) := by
  have h : parseDecimal "12.34" =
      some (((12 : ℕ) : ℚ) + ((34 : ℕ) : ℚ) / (10 : ℚ) ^ (2 : ℕ)) := rfl
  rw [h]; norm_num

theorem parse_0_5 : parseDecimal "0.5" = some (1 / 2) := by
  have h : parseDecimal "0.5" =
      some (((0 : ℕ) : ℚ) + ((5 : ℕ) : ℚ) / (10 : ℚ) ^ (1 : ℕ)) := rfl
  rw [h]; norm_num

theorem parse_5 : parseDecimal "5" = some 5 := by
  have h : parseDecimal "5" = some ((5 : ℕ) : ℚ) := rfl
  rw [h]; norm_num

theorem parse_250 : parseDecimal "250" = some 250 := by
  have h : parseDecimal "250" = some ((250 : ℕ) : ℚ) := rfl
  rw [h]; norm_num

theorem round4_0_1234 : round4 (617 / 50 / 100) = 0.1234 := by
  have h : round4 (617 / 50 / 100) = ((1234 : ℤ) : ℚ) / 10000 :=
    round4_of_mul_eq_intCast _ 1234 (by norm_num)
  rw [h]; norm_num

theorem round4_half : round4 (1 / 2) = 1 / 2 := by
  have h : round4 (1 / 2) = ((5000 : ℤ) : ℚ) / 10000 :=
    round4_of_mul_eq_intCast _ 5000 (by norm_num)
  rw [h]; norm_num

/-! ## C1 -/

/-- C1 is falsified by the code: the candidate text "250" parses successfully,
is not in [0, 1], is divided by 100 once, and the resulting turnover value
5/2 = 2.5 written to the table is neither in [0, 1] nor the sentinel -1.0. -/
theorem turnover_range_counterexample :
    (get_cmc_cap_vol_tor ⟨[], [], [LocOutcome.text "250"]⟩).2.2 = 5 / 2 ∧
    ¬((0 : ℚ) ≤ 5 / 2 ∧ (5 / 2 : ℚ) ≤ 1) ∧ (5 / 2 : ℚ) ≠ -1 := by
  refine ⟨?_, by norm_num, by norm_num⟩
  have hs : stripPct "250" = "250" := rfl
  simp only [get_cmc_cap_vol_tor, torLoop, locParse, hs, parse_250]
  rw [if_neg (by norm_num)]
  norm_num

/-- C1 (amended): for every turnover-rate text candidate that parses
successfully to the value v, the value written is v when v already lies in
[0, 1] and v / 100 (divided exactly once) otherwise; the result lies in
[0, 1] whenever the parsed value lies in [0, 100] (the range of genuine
percentage or fractional displays), but not in general. -/
theorem turnover_range_amended :
    ∀ (s : String) (v : ℚ) (rest : List LocOutcome),
      parseDecimal (stripPct s) = some v →
      (torLoop (LocOutcome.text s :: rest) = if 0 ≤ v ∧ v ≤ 1 then v else v / 100) ∧
      (0 ≤ v → v ≤ 100 →
        0 ≤ torLoop (LocOutcome.text s :: rest) ∧
        torLoop (LocOutcome.text s :: rest) ≤ 1) := by
  intro s v rest hp
  have he : torLoop (LocOutcome.text s :: rest) =
      if 0 ≤ v ∧ v ≤ 1 then v else v / 100 := by
    simp only [torLoop, locParse, hp]
  refine ⟨he, fun h0 h100 => ?_⟩
  rw [he]
  by_cases hin : 0 ≤ v ∧ v ≤ 1
  · rw [if_pos hin]; exact hin
  · rw [if_neg hin]
    refine ⟨div_nonneg h0 (by norm_num), ?_⟩
    rw [div_le_one (by norm_num : (0 : ℚ) < 100)]
    exact h100

/-- Witness for `turnover_range_amended` at the candidate "12.34%". -/
theorem turnover_range_amended_w :
    0 ≤ torLoop [LocOutcome.text "12.34%"] ∧ torLoop [LocOutcome.text "12.34%"] ≤ 1 :=
  (turnover_range_amended "12.34%" (617 / 50) []
    (by have h : stripPct "12.34%" = "12.34" := rfl
        rw [h]; exact parse_12_34)).2 (by norm_num) (by norm_num)

theorem tfc_12_34_pct : turnoverFromCandidates [TextFetch.ok "12.34%"] = 0.1234 := by
  have hc : containsChar '%' "12.34%" = true := rfl
  have hs : stripPct "12.34%" = "12.34" := rfl
  simp only [turnoverFromCandidates, hc, if_true, hs, parse_12_34]
  exact round4_0_1234

/-! ## C4 -/

/-- C4: in the turnover candidate loop, "12.34%" yields 0.1234 (percent sign
stripped, value divided by 100, rounded to 4 places); "0.5" yields 0.5; the
bare candidate "5", whose value is not strictly between 0 and 1, is rejected
and the loop moves on to the remaining candidates. -/
theorem turnover_candidate_examples :
    turnoverFromCandidates [TextFetch.ok "12.34%"] = 0.1234 ∧
    turnoverFromCandidates [TextFetch.ok "0.5"] = 0.5 ∧
    ∀ rest, turnoverFromCandidates (TextFetch.ok "5" :: rest) =
      turnoverFromCandidates rest := by
  refine ⟨tfc_12_34_pct, ?_, fun rest => rfl⟩
  · have hc : containsChar '%' "0.5" = false := rfl
    simp only [turnoverFromCandidates, hc, Bool.false_eq_true, if_false, parse_0_5]
    rw [if_pos (by norm_num), round4_half]
    norm_num

/-! ## C5 -/

/-- C5 is falsified by `get_cmc_turnover_rate`: its selector cascade commits
to the first selector that resolves a non-empty element list even when none
of that list's candidates parses, so with a first locator resolving to the
unparseable "banana" and a second that would yield 0.1234, the extracted
value is the sentinel -1.0, not the value of the first locator that yields a
syntactically parseable value. -/
theorem locator_priority_counterexample :
    get_cmc_turnover_rate
      [SelOutcome.found [TextFetch.ok "banana"], SelOutcome.found [TextFetch.ok "12.34%"]] = -1 ∧
    get_cmc_turnover_rate [SelOutcome.found [TextFetch.ok "12.34%"]] = 0.1234 ∧
    (-1 : ℚ) ≠ 0.1234 := by
  refine ⟨rfl, ?_, by norm_num⟩
  show turnoverFromCandidates [TextFetch.ok "12.34%"] = 0.1234
  exact tfc_12_34_pct

/-- C5 (amended): locators are tried in priority order and a locator that
raises not-found or stale, or resolves to nothing, is skipped in favor of the
next.  In the per-element xpath cascades of `get_cmc_cap_vol_tor` the
extracted value equals the value of the first locator that yields a
syntactically parseable value, and later locators are never consulted once
one succeeds (the result does not depend on them); in particular, when the
first locator fails and the second parses, the result is what the second
alone would produce.  In `get_cmc_turnover_rate`'s CSS-selector cascade, the
first selector that resolves a non-empty element list wins — even when none
of its candidates parses — and later selectors are never consulted. -/
theorem locator_priority_amended :
    (∀ rest, capLoop (LocOutcome.notFound :: rest) = capLoop rest) ∧
    (∀ rest, capLoop (LocOutcome.stale :: rest) = capLoop rest) ∧
    (∀ (pre : List LocOutcome) (s : String) (v : ℚ) (rest₁ rest₂ : List LocOutcome),
      (∀ o ∈ pre, locFails stripCapVol o = true) →
      parseDecimal (stripCapVol s) = some v →
      capLoop (pre ++ LocOutcome.text s :: rest₁) = v ∧
      capLoop (pre ++ LocOutcome.text s :: rest₁) =
        capLoop (pre ++ LocOutcome.text s :: rest₂)) ∧
    (∀ rest, get_cmc_turnover_rate (SelOutcome.raised :: rest) =
      get_cmc_turnover_rate rest) ∧
    (∀ rest, get_cmc_turnover_rate (SelOutcome.found [] :: rest) =
      get_cmc_turnover_rate rest) ∧
    (∀ (t : TextFetch) (ts : List TextFetch) (rest : List SelOutcome),
      get_cmc_turnover_rate (SelOutcome.found (t :: ts) :: rest) =
        turnoverFromCandidates (t :: ts)) := by
  have hwin : ∀ (pre : List LocOutcome) (s : String) (v : ℚ) (rest : List LocOutcome),
      (∀ o ∈ pre, locFails stripCapVol o = true) →
      parseDecimal (stripCapVol s) = some v →
      capLoop (pre ++ LocOutcome.text s :: rest) = v := by
    intro pre s v rest hpre hp
    induction pre with
    | nil =>
      simp only [List.nil_append, capLoop, locParse, hp]
    | cons o pre ih =>
      have ho : locFails stripCapVol o = true := hpre o (List.mem_cons_self o pre)
      have ih' := ih (fun o' ho' => hpre o' (List.mem_cons_of_mem o ho'))
      cases hlo : locParse stripCapVol o with
      | ok w => rw [locFails, hlo] at ho; exact absurd ho (by simp)
      | error e =>
        rw [List.cons_append]
        calc capLoop (o :: (pre ++ LocOutcome.text s :: rest)) =
            capLoop (pre ++ LocOutcome.text s :: rest) := by
              simp only [capLoop, hlo]
          _ = v := ih'
  refine ⟨fun rest => rfl, fun rest => rfl, ?_, fun rest => rfl, fun rest => rfl,
    fun t ts rest => rfl⟩
  intro pre s v rest₁ rest₂ hpre hp
  exact ⟨hwin pre s v rest₁ hpre hp, by rw [hwin pre s v rest₁ hpre hp, hwin pre s v rest₂ hpre hp]⟩

theorem parse_1234_5 : parseDecimal "1234.5" = some (2469 / 2) := by
  have h : parseDecimal "1234.5" =
      some (((1234 : ℕ) : ℚ) + ((5 : ℕ) : ℚ) / (10 : ℚ) ^ (1 : ℕ)) := rfl
  rw [h]; norm_num

/-- Witness for `locator_priority_amended`: a not-found locator and an
unparseable one are skipped, the first parseable locator "$1,234.5" wins, and
the trailing locator is never consulted. -/
theorem locator_priority_amended_w :
    capLoop [LocOutcome.notFound, LocOutcome.text "abc",
      LocOutcome.text "$1,234.5", LocOutcome.text "9"] = 2469 / 2 :=
  (locator_priority_amended.2.2.1 [LocOutcome.notFound, LocOutcome.text "abc"]
    "$1,234.5" (2469 / 2) [LocOutcome.text "9"] [] (by decide)
    (by have h : stripCapVol "$1,234.5" = "1234.5" := rfl
        rw [h]; exact parse_1234_5)).1

/-! ## C10 -/

theorem roundHalfEven_of_gt (q : ℚ) (n : ℤ) (hf : ⌊q⌋ = n) (h : 1 / 2 < q - n) :
    roundHalfEven q = n + 1 := by
  simp only [roundHalfEven, hf]
  rw [if_neg (by linarith), if_pos h]

theorem parse_0_123456 : parseDecimal "0.123456" = some 0.123456 := by
  have h : parseDecimal "0.123456" =
      some (((0 : ℕ) : ℚ) + ((123456 : ℕ) : ℚ) / (10 : ℚ) ^ (6 : ℕ)) := rfl
  rw [h]; norm_num

/-- C10: the single-metric extractor `get_cmc_turnover_rate` returns either
the sentinel -1.0 or `round4` of the accepted candidate's pre-rounding value,
while the three-metric extractor applies no rounding: each of its cascades
returns the first successfully parsed value as-is, including values (such as
0.123456) that are not fixed by 4-place rounding. -/
theorem turnover_rounding :
    (∀ cands, turnoverFromCandidates cands =
      (match acceptedCandidateValue cands with
       | none => -1
       | some v => round4 v)) ∧
    (∀ sels, get_cmc_turnover_rate sels =
      (match acceptedCandidateValue (firstNonEmpty sels) with
       | none => -1
       | some v => round4 v)) ∧
    (∀ (s : String) (v : ℚ) (rest : List LocOutcome),
      parseDecimal (stripCapVol s) = some v →
      capLoop (LocOutcome.text s :: rest) = v ∧
      volLoop (LocOutcome.text s :: rest) = v) ∧
    capLoop [LocOutcome.text "0.123456"] = 0.123456 ∧
    round4 (0.123456 : ℚ) ≠ (0.123456 : ℚ) := by
  have ha : ∀ cands, turnoverFromCandidates cands =
      (match acceptedCandidateValue cands with
       | none => -1
       | some v => round4 v) := by
    intro cands
    induction cands with
    | nil => rfl
    | cons c rest ih =>
      cases c with
      | stale =>
        simpa only [turnoverFromCandidates, acceptedCandidateValue] using ih
      | ok s =>
        simp only [turnoverFromCandidates, acceptedCandidateValue]
        cases hc : containsChar '%' s with
        | true =>
          simp only [if_true]
          cases hp : parseDecimal (stripPct s) with
          | none => exact ih
          | some v => rfl
        | false =>
          simp only [Bool.false_eq_true, if_false]
          cases hp : parseDecimal s with
          | none => exact ih
          | some v =>
            show (if 0 < v ∧ v < 1 then round4 v else turnoverFromCandidates rest) =
              match (if 0 < v ∧ v < 1 then some v else acceptedCandidateValue rest) with
              | none => (-1 : ℚ)
              | some w => round4 w
            by_cases hin : 0 < v ∧ v < 1
            · rw [if_pos hin, if_pos hin]
            · rw [if_neg hin, if_neg hin]; exact ih
  have hcap : capLoop [LocOutcome.text "0.123456"] = 0.123456 := by
    simp only [capLoop, locParse]
    have h : stripCapVol "0.123456" = "0.123456" := rfl
    rw [h, parse_0_123456]
  refine ⟨ha, fun sels => ha _, ?_, hcap, ?_⟩
  · intro s v rest hp
    constructor
    · simp only [capLoop, locParse, hp]
    · simp only [volLoop, locParse, hp]
  · have hf : ⌊(0.123456 : ℚ) * 10000⌋ = 1234 := by
      rw [Int.floor_eq_iff]
      constructor <;> norm_num
    have h : round4 (0.123456 : ℚ) = ((1235 : ℤ) : ℚ) / 10000 := by
      rw [round4, roundHalfEven_of_gt ((0.123456 : ℚ) * 10000) 1234 hf (by norm_num)]
      norm_num
    rw [h]; norm_num

/-- Witness for `turnover_rounding`: the cap and volume cascades return the
parsed value of "0.5" unrounded. -/
theorem turnover_rounding_w :
    capLoop [LocOutcome.text "0.5"] = 1 / 2 ∧ volLoop [LocOutcome.text "0.5"] = 1 / 2 :=
  turnover_rounding.2.2.1 "0.5" (1 / 2) []
    (by have h : stripCapVol "0.5" = "0.5" := rfl
        rw [h]; exact parse_0_5)

/-! ## C6 -/

/-- C6 is falsified by src/main.py's retry executor: with max_attempts = 3, an
operation whose two failures are timeouts and which then succeeds returns the
success result after zero inter-attempt delays, not two, because that
variant's `except TimeoutException` arm logs but never sleeps. -/
theorem retry_delay_counterexample :
    retry_wrapper_main
      (fun i => if i < 2 then AttemptM.fail .timeout else AttemptM.ok (7 : ℕ))
      3 5 false = (RetryOutcome.success 7, 3, ([] : List ℚ)) ∧
    (retry_wrapper_main
      (fun i => if i < 2 then AttemptM.fail .timeout else AttemptM.ok (7 : ℕ))
      3 5 false).2.2.length ≠ 2 := by
  exact ⟨rfl, by decide⟩

/-- C6 (amended): with max_attempts = 3, under fetch_cmc_turnover.py's
executor (which sleeps on every failure) an operation that fails twice and
then succeeds returns the success result after exactly 2 inter-attempt
delays, and an always-failing operation is attempted exactly 3 times, after
which the executor raises fatally when `if_exit` is set and otherwise returns
the no-result signal; under main.py's variant the delay is skipped for
timeout failures (so two timeout failures give 0 delays and two other
failures give 2), with the same attempt counts and exhaustion behavior. -/
theorem retry_executor_amended :
    (∀ (k₁ k₂ : FailKind) (v : ℕ) (s : ℚ) (e : Bool),
      retry_wrapper
        (fun i => if i = 0 then .fail k₁ else if i = 1 then .fail k₂ else .ok v)
        3 s e = (.success v, 3, [s, s])) ∧
    (∀ (k : FailKind) (s : ℚ),
      retry_wrapper (fun _ => (.fail k : Attempt ℕ)) 3 s true =
        (.raiseExit, 3, [s, s, s]) ∧
      retry_wrapper (fun _ => (.fail k : Attempt ℕ)) 3 s false =
        (.skipNone, 3, [s, s, s])) ∧
    (∀ (v : ℕ) (s : ℚ) (e : Bool),
      retry_wrapper_main (fun i => if i < 2 then .fail .timeout else .ok v) 3 s e =
        (.success v, 3, []) ∧
      retry_wrapper_main (fun i => if i < 2 then .fail .otherExc else .ok v) 3 s e =
        (.success v, 3, [s, s])) ∧
    (∀ s : ℚ,
      retry_wrapper_main (fun _ => (.fail .timeout : AttemptM ℕ)) 3 s true =
        (.raiseExit, 3, []) ∧
      retry_wrapper_main (fun _ => (.fail .timeout : AttemptM ℕ)) 3 s false =
        (.skipNone, 3, [])) := by
  refine ⟨fun k₁ k₂ v s e => ?_, fun k s => ⟨?_, ?_⟩, fun v s e => ⟨?_, ?_⟩,
    fun s => ⟨?_, ?_⟩⟩ <;>
    simp [retry_wrapper, retry_wrapper_main, retryGo, retryGoMain]

/-! ## C9 -/

/-- C9: every execution of the worker `save_for_one` that acquires a browser
execution context tears it down and removes its temporary directory on every
exit path: for every page content — including pages where every locator
raises not-found or stale or fails to parse — the extraction's exceptions are
all caught internally, the worker returns a record without raising, and the
final resource state has the driver closed and the temporary directory
removed. -/
theorem worker_teardown :
    ∀ (now : String) (pg : Page) (p : Pair),
      (save_for_one now pg true p).2.driverOpen = false ∧
      (save_for_one now pg true p).2.tempDirExists = false ∧
      (save_for_one now pg true p).1 = Except.ok (mkRow now pg p) :=
  fun _ _ _ => ⟨rfl, rfl, rfl⟩

/-! ## Round helpers for C7 and C8 -/

theorem runRound_ok (now : String) (pageOf : Pair → Page) (drvOf : Pair → Bool) :
    ∀ pairs : List Pair, (∀ p ∈ pairs, drvOf p = true) →
      runRound now pageOf drvOf pairs =
        .ok (pairs.map (fun p => mkRow now (pageOf p) p)) := by
  intro pairs h
  induction pairs with
  | nil => rfl
  | cons p ps ih =>
    have hd : drvOf p = true := h p (List.mem_cons_self p ps)
    have h1 : (save_for_one now (pageOf p) (drvOf p) p).1 =
        .ok (mkRow now (pageOf p) p) := by rw [hd]; rfl
    have ih' := ih fun q hq => h q (List.mem_cons_of_mem p hq)
    simp only [runRound, h1, ih', List.map_cons]

theorem runRound_fatal (now : String) (pageOf : Pair → Page) (drvOf : Pair → Bool) :
    ∀ pairs : List Pair, (∃ p ∈ pairs, drvOf p = false) →
      ∃ e, runRound now pageOf drvOf pairs = .error e := by
  intro pairs
  induction pairs with
  | nil => rintro ⟨p, hp, _⟩; exact absurd hp (List.not_mem_nil p)
  | cons p ps ih =>
    rintro ⟨q, hq, hqf⟩
    cases hd : drvOf p with
    | false =>
      have h1 : (save_for_one now (pageOf p) (drvOf p) p).1 =
          .error .attributeError := by rw [hd]; rfl
      exact ⟨.attributeError, by simp only [runRound, h1]⟩
    | true =>
      have h1 : (save_for_one now (pageOf p) (drvOf p) p).1 =
          .ok (mkRow now (pageOf p) p) := by rw [hd]; rfl
      have hq' : q ∈ ps := by
        rcases List.mem_cons.mp hq with h | h
        · rw [h] at hqf; rw [hd] at hqf; exact absurd hqf (by simp)
        · exact h
      obtain ⟨e, he⟩ := ih ⟨q, hq', hqf⟩
      exact ⟨e, by simp only [runRound, h1, he]⟩

theorem find?_indexed (g : ℕ → Row) (i : ℕ) :
    ∀ ord : List ℕ, i ∈ ord →
      (ord.map (fun j => (j, g j))).find? (fun e => e.1 == i) = some (i, g i) := by
  intro ord hi
  induction ord with
  | nil => exact absurd hi (List.not_mem_nil i)
  | cons j ord ih =>
    by_cases hj : j = i
    · rw [hj]
      simp only [List.map_cons]
      rw [List.find?_cons_of_pos _ (by simp)]
    · simp only [List.map_cons]
      rw [List.find?_cons_of_neg _ (by simp [hj])]
      refine ih ?_
      rcases List.mem_cons.mp hi with h | h
      · exact absurd h.symm hj
      · exact h

theorem filterMap_eq_map_of (f : ℕ → Option Row) (h : ℕ → Row) :
    ∀ l : List ℕ, (∀ i ∈ l, f i = some (h i)) → l.filterMap f = l.map h := by
  intro l hl
  induction l with
  | nil => rfl
  | cons i l ih =>
    rw [List.filterMap_cons_some (hl i (List.mem_cons_self i l)), List.map_cons,
      ih fun j hj => hl j (List.mem_cons_of_mem i hj)]

theorem reassemble_eq (n : ℕ) (order : List ℕ) (g : ℕ → Row)
    (h : List.Perm order (List.range n)) :
    reassemble n (collectParallel order g) = (List.range n).map g := by
  unfold reassemble collectParallel
  refine filterMap_eq_map_of _ _ _ fun i hi => ?_
  rw [find?_indexed g i order (h.mem_iff.mpr hi)]
  rfl

/-! ## C7 -/

/-- C7: when every worker acquires its context, a round yields exactly one
record per requested pair, in input order; in parallel mode the batch is
reassembled into input order from any completion order, so collection order
does not change it; a fully degraded extraction (all locators failing) still
yields a sentinel-valued record rather than being dropped; and a fatal
condition (a worker whose context creation is exhausted) makes the round
write nothing. -/
theorem round_records_complete :
    (∀ (now : String) (pageOf : Pair → Page) (drvOf : Pair → Bool)
        (pairs : List Pair),
      (∀ p ∈ pairs, drvOf p = true) →
      runRound now pageOf drvOf pairs =
        .ok (pairs.map (fun p => mkRow now (pageOf p) p))) ∧
    (∀ (n : ℕ) (order : List ℕ) (g : ℕ → Row), List.Perm order (List.range n) →
      reassemble n (collectParallel order g) = (List.range n).map g) ∧
    (∀ (now : String) (p : Pair),
      save_for_one now ⟨[], [], []⟩ true p =
        (.ok { candle_begin_time := now, symbol := p.marketPair,
               name := p.baseCurrencySlug, market_cap := -1, vol := -1,
               turnover_rate := -1 },
         { tempDirExists := false, driverOpen := false })) ∧
    (∀ (file : Option (List Row)) (fname now : String) (pageOf : Pair → Page)
        (drvOf : Pair → Bool) (pairs : List Pair),
      (∃ p ∈ pairs, drvOf p = false) →
      main_round file fname now pageOf drvOf pairs = file) := by
  refine ⟨runRound_ok, reassemble_eq, fun now p => rfl, ?_⟩
  intro file fname now pageOf drvOf pairs hex
  obtain ⟨e, he⟩ := runRound_fatal now pageOf drvOf pairs hex
  unfold main_round
  cases backup_csv file fname with
  | error _ => rfl
  | ok _ => rw [he]

/-- Witness for `round_records_complete`: two pairs produce two records in
input order; a parallel completion order that finishes the second worker
first yields the same batch; an all-failing page still yields a sentinel
record; one dead worker makes the round leave the (absent) table unchanged. -/
theorem round_records_complete_w :
    runRound "t" (fun _ => Page.mk [] [] []) (fun _ => true)
        [Pair.mk "A/USDT" "a", Pair.mk "B/USDT" "b"] =
      .ok [mkRow "t" (Page.mk [] [] []) (Pair.mk "A/USDT" "a"),
           mkRow "t" (Page.mk [] [] []) (Pair.mk "B/USDT" "b")] ∧
    reassemble 2 (collectParallel [1, 0]
        (fun _ => mkRow "t" (Page.mk [] [] []) (Pair.mk "A/USDT" "a"))) =
      (List.range 2).map (fun _ => mkRow "t" (Page.mk [] [] []) (Pair.mk "A/USDT" "a")) ∧
    save_for_one "t" ⟨[], [], []⟩ true (Pair.mk "A/USDT" "a") =
      (.ok { candle_begin_time := "t", symbol := "A/USDT", name := "a",
             market_cap := -1, vol := -1, turnover_rate := -1 },
       { tempDirExists := false, driverOpen := false }) ∧
    main_round none "f.csv" "t" (fun _ => Page.mk [] [] []) (fun _ => false)
        [Pair.mk "A/USDT" "a"] = none :=
  ⟨round_records_complete.1 "t" _ _ _ (fun p _ => rfl),
   round_records_complete.2.1 2 [1, 0] _ (by decide),
   round_records_complete.2.2.1 "t" (Pair.mk "A/USDT" "a"),
   round_records_complete.2.2.2 none "f.csv" "t" _ _ _
     ⟨Pair.mk "A/USDT" "a", List.mem_cons_self _ _, rfl⟩⟩

/-! ## C8 -/

/-- C8 is falsified by src/main.py: its `backup_csv` has no existence guard,
so when the table file does not exist `pd.read_csv` raises
`FileNotFoundError` and the round aborts before appending anything, instead
of the backup being a logged no-op. -/
theorem backup_missing_counterexample :
    backup_csv_main none "cmc_turnover_rate.csv" = .error PyExc.fileNotFoundError ∧
    main_round_main none "cmc_turnover_rate.csv"
      [{ candle_begin_time := "2023-06-01 12:00:00", symbol := "BTC/USDT",
         name := "bitcoin", market_cap := 1, vol := 1, turnover_rate := 1 }] = none :=
  ⟨rfl, rfl⟩

/-- C8 (amended): in src/fetch_cmc_turnover.py a missing table file makes the
backup a logged no-op and the round proceeds to append and normalize, and an
existing non-empty file is snapshotted at a path suffixed with the sanitized
textual hour bucket of its last row; in src/main.py's variant the backup step
has no existence guard, so a missing table file raises and aborts the round. -/
theorem backup_noop_amended :
    (∀ fname : String, backup_csv none fname = .ok none) ∧
    (∀ (fname now : String) (pageOf : Pair → Page) (drvOf : Pair → Bool)
        (pairs : List Pair),
      (∀ p ∈ pairs, drvOf p = true) →
      main_round none fname now pageOf drvOf pairs =
        some (format_csv (pairs.map (fun p => mkRow now (pageOf p) p)))) ∧
    (∀ (rows : List Row) (r : Row) (fname : String),
      rows.getLast? = some r →
      backup_csv (some rows) fname =
        .ok (some (fname ++ "." ++ sanitizeTime r.candle_begin_time))) ∧
    (∀ fname : String, backup_csv_main none fname = .error .fileNotFoundError) := by
  refine ⟨fun fname => rfl, ?_, ?_, fun fname => rfl⟩
  · intro fname now pageOf drvOf pairs h
    unfold main_round
    rw [runRound_ok now pageOf drvOf pairs h]
    rfl
  · intro rows r fname hlast
    simp only [backup_csv, hlast, backupName]

/-- Witness for `backup_noop_amended`: an existing one-row table is backed up
under the sanitized last timestamp, and a round on a missing table proceeds
to write the normalized batch. -/
theorem backup_noop_amended_w :
    backup_csv (some [⟨"2023-06-01 12:00:00", "SXP/USDT", "sxp", 2, 3, 1 / 2⟩])
        "cmc_cap_vol_tor.csv" =
      .ok (some "cmc_cap_vol_tor.csv.2023-06-01_12-00-00") ∧
    main_round none "cmc_cap_vol_tor.csv" "t" (fun _ => Page.mk [] [] [])
      (fun _ => true) [] = some (format_csv []) := by
  constructor
  · have h := backup_noop_amended.2.2.1
      [(⟨"2023-06-01 12:00:00", "SXP/USDT", "sxp", 2, 3, 1 / 2⟩ : Row)]
      ⟨"2023-06-01 12:00:00", "SXP/USDT", "sxp", 2, 3, 1 / 2⟩
      "cmc_cap_vol_tor.csv" rfl
    rw [h]
    rfl
  · have h := backup_noop_amended.2.1 "cmc_cap_vol_tor.csv" "t"
      (fun _ => Page.mk [] [] []) (fun _ => true) []
      (fun p hp => absurd hp (List.not_mem_nil p))
    rw [h, List.map_nil]

/-! ## Key and order lemmas for the normalization pass -/

theorem key_eq_iff (a b : Row) : key a = key b ↔
    a.symbol = b.symbol ∧ a.candle_begin_time = b.candle_begin_time := by
  unfold key
  exact Prod.mk.injEq _ _ _ _ ▸ Iff.rfl

theorem sameKey_iff (a b : Row) : sameKey a b = true ↔ key a = key b := by
  rw [key_eq_iff]
  unfold sameKey
  rw [Bool.and_eq_true, beq_iff_eq, beq_iff_eq]

theorem keyIs_iff (k : String × String) (r : Row) : keyIs k r = true ↔ key r = k := by
  unfold keyIs key
  rw [Bool.and_eq_true, beq_iff_eq, beq_iff_eq, Prod.ext_iff]

theorem rowLeST_of_key_eq (a b : Row) (h : key a = key b) : rowLeST a b := by
  rw [key_eq_iff] at h
  exact Or.inr ⟨h.1, le_of_eq h.2⟩

theorem key_eq_of_leST (a b : Row) (h1 : rowLeST a b) (h2 : rowLeST b a) :
    key a = key b := by
  rw [key_eq_iff]
  rcases h1 with h1 | ⟨e1, t1⟩
  · rcases h2 with h2 | ⟨e2, t2⟩
    · exact absurd (h1.trans h2) (lt_irrefl _)
    · exact absurd h1 (by rw [e2]; exact lt_irrefl _)
  · rcases h2 with h2 | ⟨e2, t2⟩
    · exact absurd h2 (by rw [e1]; exact lt_irrefl _)
    · exact ⟨e1, le_antisymm t1 t2⟩

/-! ## dedupLast lemmas -/

theorem dedupLast_sublist : ∀ l : List Row, List.Sublist (dedupLast l) l := by
  intro l
  induction l with
  | nil => exact List.Sublist.refl []
  | cons x xs ih =>
    cases h : xs.any (fun y => sameKey x y) with
    | true => simp only [dedupLast, h, if_true]; exact ih.cons x
    | false => simp only [dedupLast, h, Bool.false_eq_true, if_false]; exact ih.cons₂ x

theorem dedupLast_pairwise :
    ∀ l : List Row, (dedupLast l).Pairwise (fun a b => sameKey a b = false) := by
  intro l
  induction l with
  | nil => exact List.Pairwise.nil
  | cons x xs ih =>
    cases h : xs.any (fun y => sameKey x y) with
    | true => simpa only [dedupLast, h, if_true] using ih
    | false =>
      simp only [dedupLast, h, Bool.false_eq_true, if_false]
      refine List.Pairwise.cons (fun b hb => ?_) ih
      have hb' : b ∈ xs := (dedupLast_sublist xs).subset hb
      simpa using (List.any_eq_false.mp h) b hb'

theorem dedupLast_eq_self :
    ∀ l : List Row, l.Pairwise (fun a b => sameKey a b = false) → dedupLast l = l := by
  intro l
  induction l with
  | nil => intro _; rfl
  | cons x xs ih =>
    intro hp
    have h : xs.any (fun y => sameKey x y) = false :=
      List.any_eq_false.mpr fun y hy => by
        rw [(List.pairwise_cons.mp hp).1 y hy]; simp
    simp only [dedupLast, h, Bool.false_eq_true, if_false]
    rw [ih (List.pairwise_cons.mp hp).2]

/-! ## Stability of the multi-key sort for key classes -/

theorem filter_orderedInsert_neg (le : Row → Row → Prop) [DecidableRel le]
    (p : Row → Bool) (a : Row) (ha : p a = false) :
    ∀ l : List Row, (List.orderedInsert le a l).filter p = l.filter p := by
  intro l
  induction l with
  | nil => simp [List.orderedInsert, List.filter_cons, ha]
  | cons b l ih =>
    rw [List.orderedInsert]
    by_cases h : le a b
    · rw [if_pos h]
      simp [List.filter_cons, ha]
    · rw [if_neg h]
      simp only [List.filter_cons, ih]

theorem filter_orderedInsert_pos (le : Row → Row → Prop) [DecidableRel le]
    (p : Row → Bool) (a : Row) (ha : p a = true)
    (hle : ∀ b, p b = true → le a b) :
    ∀ l : List Row, (List.orderedInsert le a l).filter p = a :: l.filter p := by
  intro l
  induction l with
  | nil => simp [List.orderedInsert, List.filter_cons, ha]
  | cons b l ih =>
    rw [List.orderedInsert]
    by_cases h : le a b
    · rw [if_pos h]
      simp [List.filter_cons, ha]
    · have hb : p b = false := by
        cases hpb : p b with
        | true => exact absurd (hle b hpb) h
        | false => rfl
      rw [if_neg h]
      simp only [List.filter_cons, hb, Bool.false_eq_true, if_false, ih]

theorem filter_insertionSort_key (le : Row → Row → Prop) [DecidableRel le]
    (p : Row → Bool) (hle : ∀ x y, p x = true → p y = true → le x y) :
    ∀ l : List Row, (List.insertionSort le l).filter p = l.filter p := by
  intro l
  induction l with
  | nil => rfl
  | cons a l ih =>
    rw [List.insertionSort]
    cases ha : p a with
    | true =>
      rw [filter_orderedInsert_pos le p a ha (fun b hb => hle a b ha hb), ih]
      simp [List.filter_cons, ha]
    | false =>
      rw [filter_orderedInsert_neg le p a ha, ih]
      simp [List.filter_cons, ha]

/-! ## Dedup keeps exactly the last row of each key class -/

theorem filter_dedupLast (k : String × String) :
    ∀ l : List Row,
      (dedupLast l).filter (keyIs k) = ((l.filter (keyIs k)).getLast?).toList := by
  intro l
  induction l with
  | nil => rfl
  | cons x xs ih =>
    cases h : xs.any (fun y => sameKey x y) with
    | true =>
      simp only [dedupLast, h, if_true]
      rw [ih, List.filter_cons]
      cases hx : keyIs k x with
      | false => simp only [hx, Bool.false_eq_true, if_false]
      | true =>
        simp only [hx, if_true]
        have hky : key x = k := (keyIs_iff k x).mp hx
        obtain ⟨y, hy, hsy⟩ := List.any_eq_true.mp h
        have hyk : keyIs k y = true :=
          (keyIs_iff k y).mpr (((sameKey_iff x y).mp hsy).symm.trans hky)
        have hmem : y ∈ xs.filter (keyIs k) := List.mem_filter.mpr ⟨hy, hyk⟩
        have hne : xs.filter (keyIs k) ≠ [] := by
          intro hnil
          rw [hnil] at hmem
          exact absurd hmem (List.not_mem_nil y)
        obtain ⟨z, zs, hzs⟩ := List.exists_cons_of_ne_nil hne
        rw [hzs, List.getLast?_cons_cons]
    | false =>
      simp only [dedupLast, h, Bool.false_eq_true, if_false]
      cases hx : keyIs k x with
      | false =>
        simp only [List.filter_cons, hx, Bool.false_eq_true, if_false]
        exact ih
      | true =>
        have hky : key x = k := (keyIs_iff k x).mp hx
        have hall : ∀ y ∈ xs, keyIs k y = false := by
          intro y hy
          cases hyk : keyIs k y with
          | false => rfl
          | true =>
            have hs : sameKey x y = true :=
              (sameKey_iff x y).mpr (hky.trans ((keyIs_iff k y).mp hyk).symm)
            have : xs.any (fun y => sameKey x y) = true :=
              List.any_eq_true.mpr ⟨y, hy, hs⟩
            rw [h] at this
            exact absurd this (by simp)
        have hfx : xs.filter (keyIs k) = [] :=
          List.filter_eq_nil_iff.mpr fun y hy => by rw [hall y hy]; simp
        have hfd : (dedupLast xs).filter (keyIs k) = [] := by
          rw [ih, hfx]; rfl
        simp only [List.filter_cons, hx, if_true, hfd, hfx]
        rfl

/-! ## Sorted permutations with strictly distinguishable elements agree -/

theorem eq_of_perm_sorted_strict {α : Type} {le : α → α → Prop} :
    ∀ {l₁ l₂ : List α}, List.Perm l₁ l₂ → l₁.Pairwise le → l₂.Pairwise le →
      l₁.Pairwise (fun a b => ¬(le a b ∧ le b a)) → l₁ = l₂ := by
  intro l₁
  induction l₁ with
  | nil =>
    intro l₂ hp _ _ _
    exact hp.nil_eq
  | cons a t ih =>
    intro l₂ hp hs₁ hs₂ hd
    cases l₂ with
    | nil => exact absurd hp.symm.nil_eq (by simp)
    | cons b t₂ =>
      have hab : a = b := by
        by_contra hne
        have hbmem : b ∈ a :: t := hp.symm.subset (List.mem_cons_self b t₂)
        have hamem : a ∈ b :: t₂ := hp.subset (List.mem_cons_self a t)
        have hbt : b ∈ t := by
          rcases List.mem_cons.mp hbmem with h | h
          · exact absurd h.symm hne
          · exact h
        have hat₂ : a ∈ t₂ := by
          rcases List.mem_cons.mp hamem with h | h
          · exact absurd h hne
          · exact h
        have h1 : le a b := (List.pairwise_cons.mp hs₁).1 b hbt
        have h2 : le b a := (List.pairwise_cons.mp hs₂).1 a hat₂
        exact (List.pairwise_cons.mp hd).1 b hbt ⟨h1, h2⟩
      subst hab
      rw [ih hp.cons_inv (List.pairwise_cons.mp hs₁).2 (List.pairwise_cons.mp hs₂).2
        (List.pairwise_cons.mp hd).2]

/-! ## C2 -/

/-- C2: after the normalization pass, the rows carrying any key
`(symbol, hour_bucket)` are exactly the last-appended row of the
pre-normalization table with that key (so there is exactly one row per
present key, and among duplicates the most-recently-appended one wins;
pandas's multi-key sort is stable, which is what makes last-in-sorted-order
coincide with last-appended). -/
theorem format_csv_key_unique_last (l : List Row) (k : String × String) :
    (format_csv l).filter (keyIs k) = ((l.filter (keyIs k)).getLast?).toList := by
  have hle : ∀ x y : Row, keyIs k x = true → keyIs k y = true → rowLeST x y :=
    fun x y hx hy =>
      rowLeST_of_key_eq x y (((keyIs_iff k x).mp hx).trans ((keyIs_iff k y).mp hy).symm)
  have h1 : List.Perm ((format_csv l).filter (keyIs k))
      ((dedupLast (List.insertionSort rowLeST l)).filter (keyIs k)) :=
    (List.perm_insertionSort rowLeT _).filter _
  rw [filter_dedupLast k, filter_insertionSort_key rowLeST (keyIs k) hle] at h1
  cases hg : (l.filter (keyIs k)).getLast? with
  | none =>
    rw [hg] at h1
    exact h1.eq_nil
  | some a =>
    rw [hg] at h1
    exact List.perm_singleton.mp h1

/-! ## C3 -/

/-- C3: the normalization pass is idempotent — running `format_csv` (stable
sort by `(symbol, candle_begin_time)`, drop duplicate keys keeping the last,
re-sort by `candle_begin_time`, rewrite) twice produces exactly the table
produced by running it once. -/
theorem format_csv_idempotent (l : List Row) :
    format_csv (format_csv l) = format_csv l := by
  unfold format_csv
  have hsortD : (dedupLast (List.insertionSort rowLeST l)).Pairwise rowLeST :=
    (List.sorted_insertionSort rowLeST l).sublist (dedupLast_sublist _)
  have hnodup : (dedupLast (List.insertionSort rowLeST l)).Pairwise
      (fun a b => sameKey a b = false) := dedupLast_pairwise _
  have hstrict : (dedupLast (List.insertionSort rowLeST l)).Pairwise
      (fun a b => ¬(rowLeST a b ∧ rowLeST b a)) := by
    refine hnodup.imp ?_
    intro a b hab hc
    have hk : sameKey a b = true := (sameKey_iff a b).mpr (key_eq_of_leST a b hc.1 hc.2)
    rw [hab] at hk
    exact absurd hk (by simp)
  have hDfix : List.insertionSort rowLeST
      (List.insertionSort rowLeT (dedupLast (List.insertionSort rowLeST l))) =
      dedupLast (List.insertionSort rowLeST l) := by
    refine (eq_of_perm_sorted_strict ?_ hsortD ?_ hstrict).symm
    · exact ((List.perm_insertionSort rowLeST _).trans (List.perm_insertionSort rowLeT _)).symm
    · exact List.sorted_insertionSort rowLeST _
  rw [hDfix, dedupLast_eq_self _ hnodup]

end Cmc
